import Mathlib

/-!
# Particle simulation of `main_randomParticles.cpp`

A shallow embedding of the physics core of the renderer: the `particle`
record, the integration step `updateParticle`, the overlap tests
`checkCollision` and `overlaps`, the impulse response `resolveCollision`
with its positional correction `updatePositions`, the start-up population
loop and the per-tick pairwise sweep of `main`.

Scalars are the elements of an arbitrary linearly ordered field `K`
(`Rat` for evaluation, `Real` for the statements made over exact real
arithmetic); the square root used by `glm::length` is a parameter `sqrt`
of every function that measures a distance.  The float literals `0.9f`,
`0.8f`, `0.01f` are the rationals `9/10`, `4/5`, `1/100`.
-/

namespace ParticleSim

/-! ## Vectors (`glm::vec3`) -/

/-- Three-component vector, `glm::vec3`. -/
structure vec3 (K : Type) where
  x : K
  y : K
  z : K

namespace vec3

variable {K : Type} [LinearOrderedField K]

/-- Component-wise sum, `a + b`. -/
def add (a b : vec3 K) : vec3 K := ⟨a.x + b.x, a.y + b.y, a.z + b.z⟩

/-- Component-wise difference, `a - b`. -/
def sub (a b : vec3 K) : vec3 K := ⟨a.x - b.x, a.y - b.y, a.z - b.z⟩

/-- Vector times scalar, `v * s`. -/
def muls (v : vec3 K) (s : K) : vec3 K := ⟨v.x * s, v.y * s, v.z * s⟩

/-- Scalar times vector, `s * v`. -/
def smul (s : K) (v : vec3 K) : vec3 K := ⟨s * v.x, s * v.y, s * v.z⟩

/-- Vector divided by scalar, `v / s`. -/
def divs (v : vec3 K) (s : K) : vec3 K := ⟨v.x / s, v.y / s, v.z / s⟩

/-- Inner product, `glm::dot`. -/
def dot (a b : vec3 K) : K := a.x * b.x + a.y * b.y + a.z * b.z

/-- Euclidean norm, `glm::length`, over the square root `sqrt`. -/
def length (sqrt : K → K) (v : vec3 K) : K := sqrt (dot v v)

end vec3

/-! ## Particles and constants -/

/-- The `particle` struct. -/
structure particle (K : Type) where
  position : vec3 K
  velocity : vec3 K
  force : vec3 K
  radius : K
  mass : K

/-- Constant `#define NUM_PARTICLES 50`. -/
def NUM_PARTICLES : Nat := 50

/-- Constant `#define MAX_ATTEMPTS 100`. -/
def MAX_ATTEMPTS : Nat := 100

section Core

variable {K : Type} [LinearOrderedField K]

/-- Constant `#define RESTITUTION 0.9f`. -/
def RESTITUTION : K := 9 / 10

/-! ## Integration step -/

/-- The state after the first three statements of `updateParticle`:
force recorded, velocity advanced by gravity, position advanced by the new
velocity; no boundary handling yet. -/
def integrate (p : particle K) (gravity : vec3 K) (deltaTime : K) : particle K :=
  let force := gravity.muls p.mass
  let velocity := p.velocity.add (gravity.muls deltaTime)
  let position := p.position.add (velocity.muls deltaTime)
  { p with force := force, velocity := velocity, position := position }

/-- The x-axis boundary block of `updateParticle`. -/
def boundX (p : particle K) : particle K :=
  if p.position.x < -1 + p.radius then
    { p with position := { p.position with x := -1 + p.radius },
             velocity := { p.velocity with x := p.velocity.x * -RESTITUTION } }
  else if p.position.x > 1 - p.radius then
    { p with position := { p.position with x := 1 - p.radius },
             velocity := { p.velocity with x := p.velocity.x * -RESTITUTION } }
  else p

/-- The y-axis boundary block of `updateParticle`. -/
def boundY (p : particle K) : particle K :=
  if p.position.y < -1 + p.radius then
    { p with position := { p.position with y := -1 + p.radius },
             velocity := { p.velocity with y := p.velocity.y * -RESTITUTION } }
  else if p.position.y > 1 - p.radius then
    { p with position := { p.position with y := 1 - p.radius },
             velocity := { p.velocity with y := p.velocity.y * -RESTITUTION } }
  else p

/-- Function `updateParticle(p, gravity, deltaTime)`: semi-implicit Euler step followed by
the x-axis and then the y-axis boundary block. -/
def updateParticle (p : particle K) (gravity : vec3 K) (deltaTime : K) : particle K :=
  boundY (boundX (integrate p gravity deltaTime))

/-! ## Collision detection -/

/-- Function `checkCollision(p1, p2)`. -/
def checkCollision (sqrt : K → K) (p1 p2 : particle K) : Bool :=
  let distance := vec3.length sqrt (p1.position.sub p2.position)
  decide (distance < p1.radius + p2.radius)

/-! ## Collision response

The two mutating functions return both particles together with the list of
the divisors of every `/` evaluated on the path taken, in source order. -/

/-- Result of a call on a pair of particles: the two particles afterwards and
the divisors of the divisions evaluated during the call. -/
structure Outcome (K : Type) where
  p1 : particle K
  p2 : particle K
  divisors : List K

/-- Function `updatePositions(p1, p2)`. -/
def updatePositions (sqrt : K → K) (p1 p2 : particle K) : Outcome K :=
  let percentage : K := 4 / 5
  let slop : K := 1 / 100
  let distance := vec3.length sqrt (p2.position.sub p1.position)
  if distance = 0 then
    ⟨p1, p2, []⟩
  else
    let penetration := (p1.radius + p2.radius) - distance
    if penetration > slop then
      let correction :=
        (vec3.smul (penetration / (1 / p1.mass + 1 / p2.mass))
          ((p2.position.sub p1.position).divs distance)).muls percentage
      ⟨{ p1 with position := p1.position.sub (correction.divs p1.mass) },
       { p2 with position := p2.position.add (correction.divs p2.mass) },
       [p1.mass, p2.mass, 1 / p1.mass + 1 / p2.mass, distance, p1.mass, p2.mass]⟩
    else
      ⟨p1, p2, []⟩

/-- Function `resolveCollision(p1, p2)`. -/
def resolveCollision (sqrt : K → K) (p1 p2 : particle K) : Outcome K :=
  let n0 := p2.position.sub p1.position
  let distance := vec3.length sqrt n0
  if distance = 0 then
    ⟨p1, p2, []⟩
  else
    let n := n0.divs distance
    let relativeVelocity := p2.velocity.sub p1.velocity
    if vec3.dot relativeVelocity n > 0 then
      ⟨p1, p2, [distance]⟩
    else
      let impulseMagnitude :=
        -(1 + RESTITUTION) * vec3.dot relativeVelocity n / (1 / p1.mass + 1 / p2.mass)
      let impulse := vec3.smul impulseMagnitude n
      let q1 := { p1 with velocity := p1.velocity.sub (impulse.divs p1.mass) }
      let q2 := { p2 with velocity := p2.velocity.add (impulse.divs p2.mass) }
      let o := updatePositions sqrt q1 q2
      ⟨o.p1, o.p2,
       [distance, p1.mass, p2.mass, 1 / p1.mass + 1 / p2.mass, p1.mass, p2.mass] ++ o.divisors⟩

/-! ## Start-up population -/

/-- Function `overlaps(p, particles)`: the loop returns `true` at the first stored
particle closer than the sum of the radii. -/
def overlaps (sqrt : K → K) (p : particle K) : List (particle K) → Bool
  | [] => false
  | other :: rest =>
    if vec3.length sqrt (p.position.sub other.position) < p.radius + other.radius then true
    else overlaps sqrt p rest

/-- The inner `for (j ...)` loop of the population code with `attempts`
iterations left.  `gen k` is the particle returned by the `k`-th call of
`generateParticle` since start-up; the result is the collection afterwards
and the number of calls made so far. -/
def attemptLoop (sqrt : K → K) (gen : Nat → particle K) :
    Nat → Nat → List (particle K) → List (particle K) × Nat
  | 0, k, particles => (particles, k)
  | attempts + 1, k, particles =>
    let p := gen k
    if !overlaps sqrt p particles then (particles ++ [p], k + 1)
    else attemptLoop sqrt gen attempts (k + 1) particles

/-- The outer `for (i ...)` loop of the population code with `slots`
iterations left, each running the attempt loop for `maxAttempts` rounds. -/
def populateLoop (sqrt : K → K) (gen : Nat → particle K) (maxAttempts : Nat) :
    Nat → Nat → List (particle K) → List (particle K)
  | 0, _, particles => particles
  | slots + 1, k, particles =>
    let r := attemptLoop sqrt gen maxAttempts k particles
    populateLoop sqrt gen maxAttempts slots r.2 r.1

/-- The population built by `main`: `NUM_PARTICLES` slots, `MAX_ATTEMPTS`
candidates per slot, starting from the empty vector. -/
def populate (sqrt : K → K) (gen : Nat → particle K) : List (particle K) :=
  populateLoop sqrt gen MAX_ATTEMPTS NUM_PARTICLES 0 []

/-! ## Per-tick collision sweep -/

/-- A call made by the sweep, with the indices of the two particles passed. -/
inductive Call where
  | check (i j : Nat)
  | resolve (i j : Nat)
  deriving DecidableEq

/-- Whether a recorded call is a `checkCollision` call. -/
def Call.isCheck : Call → Bool
  | Call.check _ _ => true
  | Call.resolve _ _ => false

/-- Body of the inner loop of the sweep for the particles at indices `i` and
`j`: `if (checkCollision(p1, p2)) resolveCollision(p1, p2);`.  The state is the
collection and the calls made so far.  Both references are written back; for
`i = j` they alias, and then every quantity `resolveCollision` adds or
subtracts is zero, so both write-backs store the particle it read. -/
def sweepStep (sqrt : K → K) (st : List (particle K) × List Call) (i j : Nat) :
    List (particle K) × List Call :=
  match st.1[i]?, st.1[j]? with
  | some p1, some p2 =>
    if checkCollision sqrt p1 p2 then
      let o := resolveCollision sqrt p1 p2
      ((st.1.set i o.p1).set j o.p2, st.2 ++ [Call.check i j, Call.resolve i j])
    else
      (st.1, st.2 ++ [Call.check i j])
  | _, _ => st

/-- The inner loop `for (particle& p2 : particles)` for a fixed `p1` at index
`i`, over the indices `js`. -/
def sweepRow (sqrt : K → K) (i : Nat) (js : List Nat) (st : List (particle K) × List Call) :
    List (particle K) × List Call :=
  js.foldl (fun s j => sweepStep sqrt s i j) st

/-- The outer loop `for (particle& p1 : particles)` over the indices `is`,
each running the inner loop over all `n` indices. -/
def sweepRows (sqrt : K → K) (n : Nat) (is : List Nat) (st : List (particle K) × List Call) :
    List (particle K) × List Call :=
  is.foldl (fun s i => sweepRow sqrt i (List.range n) s) st

/-- The collision block of one tick of `main`: the collection afterwards and
the calls made, in order. -/
def sweep (sqrt : K → K) (particles : List (particle K)) : List (particle K) × List Call :=
  sweepRows sqrt particles.length (List.range particles.length) (particles, [])

/-! ## Quantities the statements speak about -/

/-- The radii of a collection, in order. -/
def radii (particles : List (particle K)) : List K :=
  particles.map particle.radius

/-- Distance between the centres, `glm::length(p2.position - p1.position)`. -/
def centreDistance (sqrt : K → K) (p1 p2 : particle K) : K :=
  vec3.length sqrt (p2.position.sub p1.position)

/-- The collision normal of `resolveCollision`: `(p2.position - p1.position) / distance`. -/
def unitNormal (sqrt : K → K) (p1 p2 : particle K) : vec3 K :=
  (p2.position.sub p1.position).divs (centreDistance sqrt p1 p2)

/-- Relative velocity along the normal `n`: `glm::dot(p2.velocity - p1.velocity, n)`. -/
def approachSpeed (p1 p2 : particle K) (n : vec3 K) : K :=
  vec3.dot (p2.velocity.sub p1.velocity) n

/-- The penetration of `updatePositions`: `(p1.radius + p2.radius) - distance`. -/
def penetration (sqrt : K → K) (p1 p2 : particle K) : K :=
  (p1.radius + p2.radius) - centreDistance sqrt p1 p2

/-- Two particles do not overlap: the distance between the centres, measured
either way round, is at least the sum of the radii. -/
def apart (sqrt : K → K) (a b : particle K) : Prop :=
  a.radius + b.radius ≤ vec3.length sqrt (a.position.sub b.position) ∧
    b.radius + a.radius ≤ vec3.length sqrt (b.position.sub a.position)

/-- Total linear momentum of a pair, `m1 * v1 + m2 * v2`. -/
def momentum (p1 p2 : particle K) : vec3 K :=
  (vec3.smul p1.mass p1.velocity).add (vec3.smul p2.mass p2.velocity)

/-- Mass-weighted centre of a pair, `m1 * pos1 + m2 * pos2`. -/
def weightedCentre (p1 p2 : particle K) : vec3 K :=
  (vec3.smul p1.mass p1.position).add (vec3.smul p2.mass p2.position)

/-! ## Concrete inputs -/

/-- The zero vector. -/
def zeroVec : vec3 K := ⟨0, 0, 0⟩

/-- A resting particle of radius 2 (mass `radius * radius`) at the origin. -/
def wideParticle : particle K := ⟨zeroVec, zeroVec, zeroVec, 2, 4⟩

/-- A resting particle of radius 1/2 whose centre is at `x = 2`, right of the
box. -/
def strayParticle : particle K := ⟨⟨2, 0, 0⟩, zeroVec, zeroVec, 1 / 2, 1 / 4⟩

/-- A particle of radius 1/2 centred at `x = 3/4`, moving right at speed 1. -/
def rightMover : particle K := ⟨⟨3 / 4, 0, 0⟩, ⟨1, 0, 0⟩, zeroVec, 1 / 2, 1 / 4⟩

/-- Ball of radius 1 and mass 1 at the origin, moving right at speed 1. -/
def leftBall : particle K := ⟨⟨0, 0, 0⟩, ⟨1, 0, 0⟩, zeroVec, 1, 1⟩

/-- Ball of radius 1 and mass 1 centred at `x = 1`, moving left at speed 1. -/
def rightBall : particle K := ⟨⟨1, 0, 0⟩, ⟨-1, 0, 0⟩, zeroVec, 1, 1⟩

/-- Ball of radius 1 and mass 1 at the origin, moving left at speed 1. -/
def apartLeft : particle K := ⟨⟨0, 0, 0⟩, ⟨-1, 0, 0⟩, zeroVec, 1, 1⟩

/-- Ball of radius 1 and mass 1 centred at `x = 1`, moving right at speed 1. -/
def apartRight : particle K := ⟨⟨1, 0, 0⟩, ⟨1, 0, 0⟩, zeroVec, 1, 1⟩

end Core

/-! ## Algebra of vectors -/

section VecLemmas

variable {K : Type} [LinearOrderedField K]

theorem vec3.dot_sub_comm (a b : vec3 K) :
    vec3.dot (a.sub b) (a.sub b) = vec3.dot (b.sub a) (b.sub a) := by
  simp only [vec3.dot, vec3.sub]; ring

theorem vec3.length_sub_comm (sqrt : K → K) (a b : vec3 K) :
    vec3.length sqrt (a.sub b) = vec3.length sqrt (b.sub a) := by
  simp only [vec3.length, vec3.dot_sub_comm a b]

theorem vec3.dot_self_nonneg (a : vec3 K) : 0 ≤ vec3.dot a a := by
  simp only [vec3.dot]
  nlinarith [mul_self_nonneg a.x, mul_self_nonneg a.y, mul_self_nonneg a.z]

end VecLemmas

/-! ## The integration step -/

section Integration

variable {K : Type} [LinearOrderedField K]

theorem boundX_y (q : particle K) :
    (boundX q).position.y = q.position.y ∧ (boundX q).velocity.y = q.velocity.y ∧
      (boundX q).radius = q.radius := by
  unfold boundX; split_ifs <;> simp

theorem boundY_x (q : particle K) :
    (boundY q).position.x = q.position.x ∧ (boundY q).velocity.x = q.velocity.x ∧
      (boundY q).radius = q.radius := by
  unfold boundY; split_ifs <;> simp

theorem integrate_radius (p : particle K) (g : vec3 K) (dt : K) :
    (integrate p g dt).radius = p.radius := rfl

theorem boundX_range (q : particle K) (h : q.radius ≤ 1) :
    -1 + q.radius ≤ (boundX q).position.x ∧ (boundX q).position.x ≤ 1 - q.radius := by
  unfold boundX
  split_ifs with h1 h2
  · exact ⟨le_refl _, by show -1 + q.radius ≤ 1 - q.radius; linarith⟩
  · exact ⟨by show -1 + q.radius ≤ 1 - q.radius; linarith, le_refl _⟩
  · exact ⟨not_lt.mp h1, not_lt.mp h2⟩

theorem boundY_range (q : particle K) (h : q.radius ≤ 1) :
    -1 + q.radius ≤ (boundY q).position.y ∧ (boundY q).position.y ≤ 1 - q.radius := by
  unfold boundY
  split_ifs with h1 h2
  · exact ⟨le_refl _, by show -1 + q.radius ≤ 1 - q.radius; linarith⟩
  · exact ⟨by show -1 + q.radius ≤ 1 - q.radius; linarith, le_refl _⟩
  · exact ⟨not_lt.mp h1, not_lt.mp h2⟩

/-- C4, amended: for every particle with radius at most 1 (in particular
`0 < radius ≤ 1`), every gravity and every time step, the position after
`updateParticle` lies in `[-1 + radius, 1 - radius]` on the x and the y axis. -/
theorem updateParticle_within_bounds (p : particle K) (gravity : vec3 K) (dt : K)
    (hr : p.radius ≤ 1) :
    -1 + p.radius ≤ (updateParticle p gravity dt).position.x ∧
      (updateParticle p gravity dt).position.x ≤ 1 - p.radius ∧
      -1 + p.radius ≤ (updateParticle p gravity dt).position.y ∧
      (updateParticle p gravity dt).position.y ≤ 1 - p.radius := by
  have hx := boundX_range (integrate p gravity dt) (by rw [integrate_radius]; exact hr)
  have hy := boundY_range (boundX (integrate p gravity dt))
    (by rw [(boundX_y _).2.2, integrate_radius]; exact hr)
  unfold updateParticle
  rw [(boundY_x _).1]
  rw [(boundX_y _).2.2, integrate_radius] at hy
  rw [integrate_radius] at hx
  exact ⟨hx.1, hx.2, hy.1, hy.2⟩

/-- Witness of C4, amended: the right-moving particle of radius 1/2 after a step
of length 1 without gravity. -/
theorem updateParticle_within_bounds_witness :
    (rightMover : particle ℚ).radius ≤ 1 ∧
      (-1 + (rightMover : particle ℚ).radius ≤ (updateParticle rightMover zeroVec 1).position.x ∧
      (updateParticle (rightMover : particle ℚ) zeroVec 1).position.x ≤ 1 - (rightMover : particle ℚ).radius ∧
      -1 + (rightMover : particle ℚ).radius ≤ (updateParticle rightMover zeroVec 1).position.y ∧
      (updateParticle (rightMover : particle ℚ) zeroVec 1).position.y ≤ 1 - (rightMover : particle ℚ).radius) :=
  ⟨by norm_num [rightMover],
   updateParticle_within_bounds rightMover zeroVec 1 (by norm_num [rightMover])⟩

/-- C4 as stated fails: the resting particle of radius 2 at the origin, with zero
gravity and zero time step, has `radius > 0`, is clamped to `x = -1 + radius = 1`,
and `1 ≤ 1 - radius = -1` is false. -/
theorem wideParticle_leaves_box :
    0 < (wideParticle : particle ℚ).radius ∧
      (updateParticle (wideParticle : particle ℚ) zeroVec 0).position.x = 1 ∧
      ¬ ((updateParticle (wideParticle : particle ℚ) zeroVec 0).position.x ≤
          1 - (wideParticle : particle ℚ).radius) := by
  norm_num [updateParticle, boundX, boundY, integrate, wideParticle, zeroVec, vec3.add,
    vec3.muls]

/-- C8: a particle with `0 < radius ≤ 1`, `position.x = 1 - radius + eps` for some
`eps > 0` and `velocity.x > 0`, under a gravity with zero x-component and a
time step `dt ≥ 0`, ends one `updateParticle` step with `position.x = 1 - radius`
and `velocity.x = -RESTITUTION * (velocity.x_old + gravity.x * dt) < 0`, where
`RESTITUTION = 9/10`. -/
theorem updateParticle_right_wall (p : particle K) (gravity : vec3 K) (dt eps : K)
    (_hr0 : 0 < p.radius) (hr1 : p.radius ≤ 1) (heps : 0 < eps)
    (hpos : p.position.x = 1 - p.radius + eps) (hv : 0 < p.velocity.x)
    (hg : gravity.x = 0) (hdt : 0 ≤ dt) :
    (updateParticle p gravity dt).position.x = 1 - p.radius ∧
      (updateParticle p gravity dt).velocity.x < 0 ∧
      (updateParticle p gravity dt).velocity.x =
        -RESTITUTION * (p.velocity.x + gravity.x * dt) ∧
      (RESTITUTION : K) = 9 / 10 := by
  have hmove : 0 ≤ p.velocity.x * dt := mul_nonneg hv.le hdt
  have hnl : ¬ (integrate p gravity dt).position.x < -1 + (integrate p gravity dt).radius := by
    simp only [integrate, vec3.add, vec3.muls, hg, hpos]
    intro h
    nlinarith
  have hgt : (integrate p gravity dt).position.x > 1 - (integrate p gravity dt).radius := by
    simp only [integrate, vec3.add, vec3.muls, hg, hpos]
    nlinarith
  unfold updateParticle
  rw [(boundY_x _).1, (boundY_x _).2.1]
  unfold boundX
  rw [if_neg hnl, if_pos hgt]
  refine ⟨rfl, ?_, ?_, rfl⟩
  · simp only [integrate, vec3.add, vec3.muls, hg, RESTITUTION]
    nlinarith
  · simp only [integrate, vec3.add, vec3.muls, RESTITUTION]
    ring

/-- Witness of C8: radius 1/2, `position.x = 3/4 = 1 - 1/2 + 1/4`, `velocity.x = 1`,
no gravity, `dt = 1`. -/
theorem updateParticle_right_wall_witness :
    (updateParticle (rightMover : particle ℚ) zeroVec 1).position.x = 1 - (rightMover : particle ℚ).radius ∧
      (updateParticle (rightMover : particle ℚ) zeroVec 1).velocity.x < 0 ∧
      (updateParticle (rightMover : particle ℚ) zeroVec 1).velocity.x =
        -RESTITUTION * ((rightMover : particle ℚ).velocity.x + (zeroVec : vec3 ℚ).x * 1) ∧
      (RESTITUTION : ℚ) = 9 / 10 :=
  updateParticle_right_wall rightMover zeroVec 1 (1 / 4)
    (by norm_num [rightMover]) (by norm_num [rightMover]) (by norm_num)
    (by norm_num [rightMover]) (by norm_num [rightMover]) rfl (by norm_num)

/-- C9, amended: in every `updateParticle` step, on an axis that is reflected (the
moved position lay outside `[-1 + radius, 1 - radius]`), the absolute value of the
velocity component afterwards is `RESTITUTION = 9/10` times its absolute value just
before the reflection; it is strictly smaller exactly when that component was
non-zero, and equal to it (both zero) otherwise. -/
theorem updateParticle_reflection_damps (p : particle K) (gravity : vec3 K) (dt : K) :
    (((integrate p gravity dt).position.x < -1 + p.radius ∨
        (integrate p gravity dt).position.x > 1 - p.radius) →
      |(updateParticle p gravity dt).velocity.x| =
          9 / 10 * |(integrate p gravity dt).velocity.x| ∧
        (|(updateParticle p gravity dt).velocity.x| < |(integrate p gravity dt).velocity.x| ↔
          (integrate p gravity dt).velocity.x ≠ 0)) ∧
    (((integrate p gravity dt).position.y < -1 + p.radius ∨
        (integrate p gravity dt).position.y > 1 - p.radius) →
      |(updateParticle p gravity dt).velocity.y| =
          9 / 10 * |(integrate p gravity dt).velocity.y| ∧
        (|(updateParticle p gravity dt).velocity.y| < |(integrate p gravity dt).velocity.y| ↔
          (integrate p gravity dt).velocity.y ≠ 0)) := by
  have key : ∀ v : K, |v * -RESTITUTION| = 9 / 10 * |v| ∧
      (|v * -RESTITUTION| < |v| ↔ v ≠ 0) := by
    intro v
    have h1 : |v * -RESTITUTION| = 9 / 10 * |v| := by
      rw [abs_mul, abs_neg, RESTITUTION, abs_of_pos (by norm_num : (0 : K) < 9 / 10)]
      ring
    refine ⟨h1, ?_⟩
    rw [h1]
    constructor
    · intro h hv
      rw [hv] at h
      simp at h
    · intro hv
      have : 0 < |v| := abs_pos.mpr hv
      linarith
  constructor
  · intro hx
    have hvx : (updateParticle p gravity dt).velocity.x =
        (integrate p gravity dt).velocity.x * -RESTITUTION := by
      unfold updateParticle
      rw [(boundY_x _).2.1]
      unfold boundX
      rw [integrate_radius]
      rcases hx with hx | hx
      · rw [if_pos hx]
      · split_ifs <;> rfl
    rw [hvx]
    exact key _
  · intro hy
    have hvy : (updateParticle p gravity dt).velocity.y =
        (integrate p gravity dt).velocity.y * -RESTITUTION := by
      unfold updateParticle
      have e1 := (boundX_y (integrate p gravity dt)).1
      have e2 := (boundX_y (integrate p gravity dt)).2.1
      have e3 := (boundX_y (integrate p gravity dt)).2.2
      rw [integrate_radius] at e3
      rw [← e1] at hy
      rw [← e2]
      unfold boundY
      rw [e3]
      rcases hy with hy | hy
      · rw [if_pos hy]
      · split_ifs <;> rfl
    rw [hvy]
    exact key _

/-- Witness of C9, amended: the right-moving particle crosses the right wall in a
step of length 1 and its x-speed drops from 1 to 9/10. -/
theorem updateParticle_reflection_damps_witness :
    |(updateParticle (rightMover : particle ℚ) zeroVec 1).velocity.x| =
        9 / 10 * |(integrate (rightMover : particle ℚ) zeroVec 1).velocity.x| ∧
      (|(updateParticle (rightMover : particle ℚ) zeroVec 1).velocity.x| <
          |(integrate (rightMover : particle ℚ) zeroVec 1).velocity.x| ↔
        (integrate (rightMover : particle ℚ) zeroVec 1).velocity.x ≠ 0) :=
  (updateParticle_reflection_damps rightMover zeroVec 1).1
    (Or.inr (by norm_num [integrate, rightMover, zeroVec, vec3.add, vec3.muls]))

/-- C9 as stated fails: the resting particle of radius 1/2 at `x = 2`, with zero
gravity and zero time step, is moved to `x = 2 > 1 - radius`, so the x axis is
reflected, and its x-velocity is `0` before and after: not strictly smaller. -/
theorem updateParticle_reflection_not_strict :
    (integrate (strayParticle : particle ℚ) zeroVec 0).position.x >
        1 - (strayParticle : particle ℚ).radius ∧
      (updateParticle (strayParticle : particle ℚ) zeroVec 0).position.x =
        1 - (strayParticle : particle ℚ).radius ∧
      ¬ (|(updateParticle (strayParticle : particle ℚ) zeroVec 0).velocity.x| <
          |(integrate (strayParticle : particle ℚ) zeroVec 0).velocity.x|) := by
  norm_num [updateParticle, boundX, boundY, integrate, strayParticle, zeroVec, vec3.add,
    vec3.muls]

end Integration

/-! ## Collision response -/

section Response

variable {K : Type} [LinearOrderedField K]

theorem updatePositions_fields (sqrt : K → K) (p1 p2 : particle K) :
    (updatePositions sqrt p1 p2).p1.velocity = p1.velocity ∧
      (updatePositions sqrt p1 p2).p2.velocity = p2.velocity ∧
      (updatePositions sqrt p1 p2).p1.radius = p1.radius ∧
      (updatePositions sqrt p1 p2).p2.radius = p2.radius ∧
      (updatePositions sqrt p1 p2).p1.mass = p1.mass ∧
      (updatePositions sqrt p1 p2).p2.mass = p2.mass := by
  unfold updatePositions
  simp only []
  split_ifs <;> simp

theorem resolveCollision_radius (sqrt : K → K) (p1 p2 : particle K) :
    (resolveCollision sqrt p1 p2).p1.radius = p1.radius ∧
      (resolveCollision sqrt p1 p2).p2.radius = p2.radius := by
  unfold resolveCollision
  simp only []
  split_ifs
  · simp
  · simp
  · exact ⟨(updatePositions_fields sqrt _ _).2.2.1, (updatePositions_fields sqrt _ _).2.2.2.1⟩

/-- Pushing two points apart along a common vector `w`, each by `w` over its own
mass, leaves the mass-weighted sum unchanged. -/
theorem vec3.weighted_push (a b w : vec3 K) (m1 m2 : K) (h1 : m1 ≠ 0) (h2 : m2 ≠ 0) :
    (vec3.smul m1 (a.sub (w.divs m1))).add (vec3.smul m2 (b.add (w.divs m2))) =
      (vec3.smul m1 a).add (vec3.smul m2 b) := by
  simp only [vec3.smul, vec3.sub, vec3.add, vec3.divs, vec3.mk.injEq]
  refine ⟨?_, ?_, ?_⟩ <;> field_simp <;> ring

/-- Relative velocity along `n` after the push by `w`. -/
theorem vec3.dot_push (v1 v2 w n : vec3 K) (m1 m2 : K) :
    vec3.dot ((v2.add (w.divs m2)).sub (v1.sub (w.divs m1))) n =
      vec3.dot (v2.sub v1) n + (1 / m1 + 1 / m2) * vec3.dot w n := by
  simp only [vec3.dot, vec3.sub, vec3.add, vec3.divs, div_eq_mul_inv]
  ring

theorem vec3.dot_smul_left (s : K) (a b : vec3 K) :
    vec3.dot (vec3.smul s a) b = s * vec3.dot a b := by
  simp only [vec3.dot, vec3.smul]; ring

/-- A vector divided by its own length is a unit vector. -/
theorem vec3.dot_divs_self (a : vec3 K) (d : K) (hd : d ≠ 0) (hsq : d * d = vec3.dot a a) :
    vec3.dot (a.divs d) (a.divs d) = 1 := by
  have : vec3.dot (a.divs d) (a.divs d) = vec3.dot a a / (d * d) := by
    simp only [vec3.dot, vec3.divs]
    field_simp
  rw [this, ← hsq]
  exact div_self (mul_ne_zero hd hd)

theorem inv_mass_sum_pos (m1 m2 : K) (h1 : 0 < m1) (h2 : 0 < m2) : 0 < 1 / m1 + 1 / m2 :=
  add_pos (one_div_pos.mpr h1) (one_div_pos.mpr h2)

/-- Velocities after `resolveCollision` on the impulse path. -/
theorem resolveCollision_velocity (sqrt : K → K) (p1 p2 : particle K)
    (hd : vec3.length sqrt (p2.position.sub p1.position) ≠ 0)
    (hv : ¬ vec3.dot (p2.velocity.sub p1.velocity)
        ((p2.position.sub p1.position).divs
          (vec3.length sqrt (p2.position.sub p1.position))) > 0) :
    (resolveCollision sqrt p1 p2).p1.velocity =
        p1.velocity.sub ((vec3.smul
          (-(1 + RESTITUTION) * vec3.dot (p2.velocity.sub p1.velocity)
              ((p2.position.sub p1.position).divs
                (vec3.length sqrt (p2.position.sub p1.position))) /
            (1 / p1.mass + 1 / p2.mass))
          ((p2.position.sub p1.position).divs
            (vec3.length sqrt (p2.position.sub p1.position)))).divs p1.mass) ∧
      (resolveCollision sqrt p1 p2).p2.velocity =
        p2.velocity.add ((vec3.smul
          (-(1 + RESTITUTION) * vec3.dot (p2.velocity.sub p1.velocity)
              ((p2.position.sub p1.position).divs
                (vec3.length sqrt (p2.position.sub p1.position))) /
            (1 / p1.mass + 1 / p2.mass))
          ((p2.position.sub p1.position).divs
            (vec3.length sqrt (p2.position.sub p1.position)))).divs p2.mass) := by
  unfold resolveCollision
  simp only []
  rw [if_neg hd, if_neg hv]
  exact ⟨(updatePositions_fields sqrt _ _).1, (updatePositions_fields sqrt _ _).2.1⟩

/-- Over the reals the centre distance is non-negative and squares to the inner
product of the difference vector with itself. -/
theorem centreDistance_real (p1 p2 : particle ℝ) :
    0 ≤ centreDistance Real.sqrt p1 p2 ∧
      centreDistance Real.sqrt p1 p2 * centreDistance Real.sqrt p1 p2 =
        vec3.dot (p2.position.sub p1.position) (p2.position.sub p1.position) :=
  ⟨Real.sqrt_nonneg _, Real.mul_self_sqrt (vec3.dot_self_nonneg _)⟩

/-- Length of a vector scaled by a non-negative real. -/
theorem vec3.length_muls_real (a : vec3 ℝ) (k : ℝ) (hk : 0 ≤ k) :
    vec3.length Real.sqrt (a.muls k) = k * vec3.length Real.sqrt a := by
  have h : vec3.dot (a.muls k) (a.muls k) = k * k * vec3.dot a a := by
    simp only [vec3.dot, vec3.muls]; ring
  simp only [vec3.length]
  rw [h, Real.sqrt_mul (mul_self_nonneg k), Real.sqrt_mul_self hk]

/-- The difference of the centres after the correction of `updatePositions` is the
old difference scaled by `1 + 4/5 * pen / d`. -/
theorem vec3.corrected_difference (a b : vec3 K) (m1 m2 pen d : K)
    (h1 : 0 < m1) (h2 : 0 < m2) (hd : d ≠ 0) :
    (b.add (((vec3.smul (pen / (1 / m1 + 1 / m2)) ((b.sub a).divs d)).muls (4 / 5)).divs m2)).sub
        (a.sub (((vec3.smul (pen / (1 / m1 + 1 / m2)) ((b.sub a).divs d)).muls (4 / 5)).divs m1)) =
      (b.sub a).muls (1 + 4 / 5 * pen / d) := by
  have hs : m1 + m2 ≠ 0 := (add_pos h1 h2).ne.symm
  have hs2 : m2 + m1 ≠ 0 := by rw [add_comm]; exact hs
  have hm1 : m1 ≠ 0 := h1.ne.symm
  have hm2 : m2 ≠ 0 := h2.ne.symm
  simp only [vec3.smul, vec3.sub, vec3.add, vec3.divs, vec3.muls, vec3.mk.injEq]
  refine ⟨?_, ?_, ?_⟩ <;> field_simp <;> ring

/-- C1: over the reals, for two particles with positive masses and non-zero
centre distance that approach each other along the unit normal `n` from `p1` to
`p2` (`dot(p2.velocity - p1.velocity, n) < 0`), the velocities after
`resolveCollision` satisfy `dot(v2_new - v1_new, n) ≥ 0`; the new value is
`-RESTITUTION` times the old one. -/
theorem resolveCollision_stops_approach (p1 p2 : particle ℝ)
    (hm1 : 0 < p1.mass) (hm2 : 0 < p2.mass)
    (hd : centreDistance Real.sqrt p1 p2 ≠ 0)
    (happ : approachSpeed p1 p2 (unitNormal Real.sqrt p1 p2) < 0) :
    0 ≤ approachSpeed (resolveCollision Real.sqrt p1 p2).p1 (resolveCollision Real.sqrt p1 p2).p2
          (unitNormal Real.sqrt p1 p2) ∧
      approachSpeed (resolveCollision Real.sqrt p1 p2).p1 (resolveCollision Real.sqrt p1 p2).p2
          (unitNormal Real.sqrt p1 p2) =
        -RESTITUTION * approachSpeed p1 p2 (unitNormal Real.sqrt p1 p2) := by
  have hv := resolveCollision_velocity Real.sqrt p1 p2 hd (not_lt.mpr happ.le)
  have hunit := vec3.dot_divs_self (p2.position.sub p1.position) _ hd
    (centreDistance_real p1 p2).2
  have hs := inv_mass_sum_pos p1.mass p2.mass hm1 hm2
  have heq : approachSpeed (resolveCollision Real.sqrt p1 p2).p1
      (resolveCollision Real.sqrt p1 p2).p2 (unitNormal Real.sqrt p1 p2) =
      -RESTITUTION * approachSpeed p1 p2 (unitNormal Real.sqrt p1 p2) := by
    unfold approachSpeed unitNormal
    unfold centreDistance at hunit ⊢
    rw [hv.1, hv.2, vec3.dot_push, vec3.dot_smul_left, hunit]
    simp only [RESTITUTION]
    field_simp
    ring
  refine ⟨?_, heq⟩
  rw [heq]
  simp only [RESTITUTION]
  nlinarith

theorem centreDistance_balls :
    centreDistance Real.sqrt (leftBall : particle ℝ) rightBall = 1 ∧
      centreDistance Real.sqrt (apartLeft : particle ℝ) apartRight = 1 := by
  constructor <;>
    simp [centreDistance, vec3.length, vec3.dot, vec3.sub, leftBall, rightBall, apartLeft,
      apartRight]

/-- Witness of C1: two unit balls one unit apart heading for each other. -/
theorem resolveCollision_stops_approach_witness :
    approachSpeed (leftBall : particle ℝ) rightBall (unitNormal Real.sqrt leftBall rightBall) < 0 ∧
      0 ≤ approachSpeed (resolveCollision Real.sqrt (leftBall : particle ℝ) rightBall).p1
        (resolveCollision Real.sqrt (leftBall : particle ℝ) rightBall).p2
        (unitNormal Real.sqrt leftBall rightBall) :=
  have happ : approachSpeed (leftBall : particle ℝ) rightBall
      (unitNormal Real.sqrt leftBall rightBall) < 0 := by
    simp only [approachSpeed, unitNormal, centreDistance_balls.1]
    norm_num [vec3.dot, vec3.sub, vec3.divs, leftBall, rightBall]
  ⟨happ, (resolveCollision_stops_approach leftBall rightBall
    (by norm_num [leftBall]) (by norm_num [rightBall])
    (by rw [centreDistance_balls.1]; norm_num) happ).1⟩

/-- C2: two particles with non-zero centre distance that are already separating
(`dot(p2.velocity - p1.velocity, n) > 0`, `n` the unit vector from `p1` to `p2`) are
returned by `resolveCollision` with every field unchanged, whatever their
penetration. -/
theorem resolveCollision_separating_unchanged (sqrt : K → K) (p1 p2 : particle K)
    (hd : centreDistance sqrt p1 p2 ≠ 0)
    (hsep : approachSpeed p1 p2 (unitNormal sqrt p1 p2) > 0) :
    (resolveCollision sqrt p1 p2).p1 = p1 ∧ (resolveCollision sqrt p1 p2).p2 = p2 := by
  unfold centreDistance at hd
  unfold approachSpeed unitNormal centreDistance at hsep
  unfold resolveCollision
  simp only []
  rw [if_neg hd, if_pos hsep]
  exact ⟨rfl, rfl⟩

/-- Witness of C2: two unit balls one unit apart (penetration 1, above the slop)
moving away from each other. -/
theorem resolveCollision_separating_unchanged_witness :
    penetration Real.sqrt (apartLeft : particle ℝ) apartRight > 1 / 100 ∧
      (resolveCollision Real.sqrt (apartLeft : particle ℝ) apartRight).p1 = apartLeft ∧
      (resolveCollision Real.sqrt (apartLeft : particle ℝ) apartRight).p2 = apartRight :=
  ⟨by
    simp only [penetration, centreDistance_balls.2]
    norm_num [apartLeft, apartRight],
   resolveCollision_separating_unchanged Real.sqrt apartLeft apartRight
    (by rw [centreDistance_balls.2]; norm_num)
    (by
      simp only [approachSpeed, unitNormal, centreDistance_balls.2]
      norm_num [vec3.dot, vec3.sub, vec3.divs, apartLeft, apartRight])⟩

/-- C3: over the reals, for two particles with positive masses and non-zero
centre distance whose penetration `p = (r1 + r2) - distance` exceeds the slop
`1/100`, the penetration recomputed after `updatePositions` is strictly less than
`p`; it is `p / 5`. -/
theorem updatePositions_reduces_penetration (p1 p2 : particle ℝ)
    (hm1 : 0 < p1.mass) (hm2 : 0 < p2.mass)
    (hd : centreDistance Real.sqrt p1 p2 ≠ 0)
    (hpen : penetration Real.sqrt p1 p2 > 1 / 100) :
    penetration Real.sqrt (updatePositions Real.sqrt p1 p2).p1
        (updatePositions Real.sqrt p1 p2).p2 < penetration Real.sqrt p1 p2 ∧
      penetration Real.sqrt (updatePositions Real.sqrt p1 p2).p1
        (updatePositions Real.sqrt p1 p2).p2 = penetration Real.sqrt p1 p2 / 5 := by
  have hd0 := (centreDistance_real p1 p2).1
  have hdpos : 0 < centreDistance Real.sqrt p1 p2 := lt_of_le_of_ne hd0 (Ne.symm hd)
  have hpen0 : 0 < penetration Real.sqrt p1 p2 := by linarith
  have hk : 0 ≤ 1 + 4 / 5 * penetration Real.sqrt p1 p2 / centreDistance Real.sqrt p1 p2 := by
    have : 0 ≤ 4 / 5 * penetration Real.sqrt p1 p2 / centreDistance Real.sqrt p1 p2 :=
      div_nonneg (by linarith) hd0
    linarith
  have heq : penetration Real.sqrt (updatePositions Real.sqrt p1 p2).p1
      (updatePositions Real.sqrt p1 p2).p2 = penetration Real.sqrt p1 p2 / 5 := by
    have hd1 : ¬ vec3.length Real.sqrt (p2.position.sub p1.position) = 0 := hd
    have hp1 : p1.radius + p2.radius - vec3.length Real.sqrt (p2.position.sub p1.position) >
        1 / 100 := hpen
    have hlen := vec3.length_muls_real (p2.position.sub p1.position) _ hk
    have hdiff := vec3.corrected_difference p1.position p2.position p1.mass p2.mass
      (penetration Real.sqrt p1 p2) (centreDistance Real.sqrt p1 p2) hm1 hm2 hd
    unfold updatePositions
    simp only []
    rw [if_neg hd1, if_pos hp1]
    unfold penetration centreDistance at hdiff hlen ⊢
    simp only []
    rw [hdiff, hlen]
    unfold centreDistance at hd
    field_simp
    ring
  refine ⟨?_, heq⟩
  rw [heq]
  linarith

/-- Witness of C3: two unit balls one unit apart have penetration 1. -/
theorem updatePositions_reduces_penetration_witness :
    penetration Real.sqrt (leftBall : particle ℝ) rightBall > 1 / 100 ∧
      penetration Real.sqrt (updatePositions Real.sqrt (leftBall : particle ℝ) rightBall).p1
        (updatePositions Real.sqrt (leftBall : particle ℝ) rightBall).p2 <
        penetration Real.sqrt (leftBall : particle ℝ) rightBall :=
  have hpen : penetration Real.sqrt (leftBall : particle ℝ) rightBall > 1 / 100 := by
    simp only [penetration, centreDistance_balls.1]
    norm_num [leftBall, rightBall]
  ⟨hpen, (updatePositions_reduces_penetration leftBall rightBall
    (by norm_num [leftBall]) (by norm_num [rightBall])
    (by rw [centreDistance_balls.1]; norm_num) hpen).1⟩

/-- C5: for two particles whose positions coincide, `resolveCollision` and
`updatePositions` each return both particles with every field unchanged, and
the list of divisors evaluated is empty: no division, in particular none by the
zero distance, takes place.  The square root only has to map 0 to 0. -/
theorem coincident_short_circuit (sqrt : K → K) (p1 p2 : particle K)
    (h0 : sqrt 0 = 0) (hpos : p1.position = p2.position) :
    resolveCollision sqrt p1 p2 = ⟨p1, p2, []⟩ ∧ updatePositions sqrt p1 p2 = ⟨p1, p2, []⟩ := by
  have hz : vec3.length sqrt (p2.position.sub p1.position) = 0 := by
    rw [hpos]
    simp [vec3.length, vec3.dot, vec3.sub, h0]
  constructor
  · unfold resolveCollision
    simp only []
    rw [if_pos hz]
  · unfold updatePositions
    simp only []
    rw [if_pos hz]

/-- Witness of C5: two different unit balls both centred at the origin, over the
reals. -/
theorem coincident_short_circuit_witness :
    (leftBall : particle ℝ).position = (apartLeft : particle ℝ).position ∧
      resolveCollision Real.sqrt (leftBall : particle ℝ) apartLeft = ⟨leftBall, apartLeft, []⟩ ∧
      updatePositions Real.sqrt (leftBall : particle ℝ) apartLeft = ⟨leftBall, apartLeft, []⟩ :=
  ⟨rfl, coincident_short_circuit Real.sqrt leftBall apartLeft Real.sqrt_zero rfl⟩

theorem updatePositions_centre (sqrt : K → K) (p1 p2 : particle K)
    (h1 : p1.mass ≠ 0) (h2 : p2.mass ≠ 0) :
    weightedCentre (updatePositions sqrt p1 p2).p1 (updatePositions sqrt p1 p2).p2 =
      weightedCentre p1 p2 := by
  unfold updatePositions
  simp only []
  split_ifs
  · rfl
  · exact vec3.weighted_push _ _ _ _ _ h1 h2
  · rfl

/-- C10: for two particles with positive masses, `resolveCollision` leaves the
masses, the total linear momentum `m1 * v1 + m2 * v2` and the mass-weighted
centre `m1 * pos1 + m2 * pos2` of the pair unchanged, on every path (abort,
impulse only, impulse with positional correction) and for every square root. -/
theorem resolveCollision_conserves (sqrt : K → K) (p1 p2 : particle K)
    (hm1 : 0 < p1.mass) (hm2 : 0 < p2.mass) :
    (resolveCollision sqrt p1 p2).p1.mass = p1.mass ∧
      (resolveCollision sqrt p1 p2).p2.mass = p2.mass ∧
      momentum (resolveCollision sqrt p1 p2).p1 (resolveCollision sqrt p1 p2).p2 =
        momentum p1 p2 ∧
      weightedCentre (resolveCollision sqrt p1 p2).p1 (resolveCollision sqrt p1 p2).p2 =
        weightedCentre p1 p2 := by
  unfold resolveCollision
  simp only []
  split_ifs
  · exact ⟨rfl, rfl, rfl, rfl⟩
  · exact ⟨rfl, rfl, rfl, rfl⟩
  · have hf := updatePositions_fields sqrt
      { p1 with velocity := p1.velocity.sub ((vec3.smul
        (-(1 + RESTITUTION) * vec3.dot (p2.velocity.sub p1.velocity)
            ((p2.position.sub p1.position).divs
              (vec3.length sqrt (p2.position.sub p1.position))) /
          (1 / p1.mass + 1 / p2.mass))
        ((p2.position.sub p1.position).divs
          (vec3.length sqrt (p2.position.sub p1.position)))).divs p1.mass) }
      { p2 with velocity := p2.velocity.add ((vec3.smul
        (-(1 + RESTITUTION) * vec3.dot (p2.velocity.sub p1.velocity)
            ((p2.position.sub p1.position).divs
              (vec3.length sqrt (p2.position.sub p1.position))) /
          (1 / p1.mass + 1 / p2.mass))
        ((p2.position.sub p1.position).divs
          (vec3.length sqrt (p2.position.sub p1.position)))).divs p2.mass) }
    refine ⟨hf.2.2.2.2.1, hf.2.2.2.2.2, ?_, ?_⟩
    · unfold momentum
      simp only []
      rw [hf.1, hf.2.1, hf.2.2.2.2.1, hf.2.2.2.2.2]
      exact vec3.weighted_push _ _ _ _ _ hm1.ne.symm hm2.ne.symm
    · refine Eq.trans (updatePositions_centre sqrt _ _ ?_ ?_) ?_
      · exact hm1.ne.symm
      · exact hm2.ne.symm
      · rfl

/-- Witness of C10: the two approaching unit balls, over the reals. -/
theorem resolveCollision_conserves_witness :
    momentum (resolveCollision Real.sqrt (leftBall : particle ℝ) rightBall).p1
        (resolveCollision Real.sqrt (leftBall : particle ℝ) rightBall).p2 =
        momentum leftBall rightBall ∧
      weightedCentre (resolveCollision Real.sqrt (leftBall : particle ℝ) rightBall).p1
        (resolveCollision Real.sqrt (leftBall : particle ℝ) rightBall).p2 =
        weightedCentre leftBall rightBall :=
  (resolveCollision_conserves Real.sqrt leftBall rightBall
    (by norm_num [leftBall]) (by norm_num [rightBall])).2.2

end Response

/-! ## Start-up population -/

section Population

variable {K : Type} [LinearOrderedField K]

/-- The overlap test fails exactly when every stored particle is at least the
sum of the radii away from the candidate. -/
theorem overlaps_eq_false_iff (sqrt : K → K) (p : particle K) (ps : List (particle K)) :
    overlaps sqrt p ps = false ↔
      ∀ q ∈ ps, p.radius + q.radius ≤ vec3.length sqrt (p.position.sub q.position) := by
  induction ps with
  | nil => simp [overlaps]
  | cons other rest ih =>
    unfold overlaps
    by_cases h : vec3.length sqrt (p.position.sub other.position) < p.radius + other.radius
    · rw [if_pos h]
      simp only [List.mem_cons, forall_eq_or_imp]
      constructor
      · intro hc; cases hc
      · intro hc; exact absurd h (not_lt.mpr hc.1)
    · rw [if_neg h, ih]
      simp only [List.mem_cons, forall_eq_or_imp]
      exact ⟨fun hr => ⟨not_lt.mp h, hr⟩, fun hr => hr.2⟩

theorem attemptLoop_pairwise (sqrt : K → K) (gen : Nat → particle K) (attempts : Nat) :
    ∀ (k : Nat) (ps : List (particle K)), ps.Pairwise (apart sqrt) →
      (attemptLoop sqrt gen attempts k ps).1.Pairwise (apart sqrt) := by
  induction attempts with
  | zero => intro k ps h; exact h
  | succ a ih =>
    intro k ps h
    unfold attemptLoop
    simp only []
    by_cases ho : overlaps sqrt (gen k) ps = false
    · rw [ho]
      simp only [Bool.not_false, if_true]
      rw [List.pairwise_append]
      refine ⟨h, List.pairwise_singleton _ _, ?_⟩
      intro q hq b hb
      rw [List.mem_singleton] at hb
      subst hb
      have hfar := (overlaps_eq_false_iff sqrt (gen k) ps).mp ho q hq
      constructor
      · rw [vec3.length_sub_comm, add_comm]; exact hfar
      · exact hfar
    · have ht : overlaps sqrt (gen k) ps = true := by
        cases hov : overlaps sqrt (gen k) ps
        · exact absurd hov ho
        · rfl
      rw [ht]
      simp only [Bool.not_true, Bool.false_eq_true, if_false]
      exact ih (k + 1) ps h

theorem populateLoop_pairwise (sqrt : K → K) (gen : Nat → particle K) (maxAttempts slots : Nat) :
    ∀ (k : Nat) (ps : List (particle K)), ps.Pairwise (apart sqrt) →
      (populateLoop sqrt gen maxAttempts slots k ps).Pairwise (apart sqrt) := by
  induction slots with
  | zero => intro k ps h; exact h
  | succ n ih =>
    intro k ps h
    unfold populateLoop
    exact ih _ _ (attemptLoop_pairwise sqrt gen maxAttempts k ps h)

/-- C6: for every stream `gen` of candidates returned by `generateParticle` (and
every square root), the population built by the start-up loop is pairwise
non-overlapping: any two particles at different places of the collection have
their centres at least the sum of their radii apart. -/
theorem populate_pairwise_apart (sqrt : K → K) (gen : Nat → particle K) :
    (populate sqrt gen).Pairwise
      (fun a b => a.radius + b.radius ≤ vec3.length sqrt (a.position.sub b.position) ∧
        b.radius + a.radius ≤ vec3.length sqrt (b.position.sub a.position)) :=
  populateLoop_pairwise sqrt gen MAX_ATTEMPTS NUM_PARTICLES 0 [] List.Pairwise.nil

end Population

/-! ## Per-tick collision sweep -/

section Sweep

variable {K : Type}

/-- Overwriting a slot with a particle of the radius already stored there keeps
the radii. -/
theorem radii_set (ps : List (particle K)) (q : particle K) :
    ∀ i : Nat, (radii ps)[i]? = some q.radius → radii (ps.set i q) = radii ps := by
  induction ps with
  | nil => intro i h; simp [radii] at h
  | cons a t ih =>
    intro i h
    cases i with
    | zero =>
      simp only [radii, List.map_cons, List.getElem?_cons_zero, Option.some.injEq] at h
      simp [radii, h]
    | succ i =>
      simp only [radii, List.map_cons, List.getElem?_cons_succ] at h
      have := ih i h
      simp only [radii] at this
      simp [radii, this]

theorem radii_getElem? (ps : List (particle K)) (i : Nat) (p : particle K)
    (h : ps[i]? = some p) : (radii ps)[i]? = some p.radius := by
  simp [radii, List.getElem?_map, h]

theorem radii_length (ps : List (particle K)) : (radii ps).length = ps.length := by
  simp [radii]

variable [LinearOrderedField K]

/-- A particle of positive radius tested against itself collides. -/
theorem checkCollision_self (sqrt : K → K) (h0 : sqrt 0 = 0) (p : particle K)
    (hr : 0 < p.radius) : checkCollision sqrt p p = true := by
  have hz : vec3.length sqrt (p.position.sub p.position) = 0 := by
    simp [vec3.length, vec3.dot, vec3.sub, h0]
  unfold checkCollision
  simp only [hz, decide_eq_true_eq]
  linarith

theorem sweepStep_radii (sqrt : K → K) (st : List (particle K) × List Call) (i j : Nat) :
    radii (sweepStep sqrt st i j).1 = radii st.1 := by
  unfold sweepStep
  split
  · rename_i p1 p2 h1 h2
    split_ifs
    · have e1 : radii (st.1.set i (resolveCollision sqrt p1 p2).p1) = radii st.1 :=
        radii_set st.1 _ i (by
          rw [(resolveCollision_radius sqrt p1 p2).1]
          exact radii_getElem? st.1 i p1 h1)
      have e2 := radii_set (st.1.set i (resolveCollision sqrt p1 p2).p1)
        (resolveCollision sqrt p1 p2).p2 j (by
          rw [e1, (resolveCollision_radius sqrt p1 p2).2]
          exact radii_getElem? st.1 j p2 h2)
      exact e2.trans e1
    · rfl
  · rfl

theorem sweepStep_calls_mono (sqrt : K → K) (st : List (particle K) × List Call) (i j : Nat)
    (c : Call) (hc : c ∈ st.2) : c ∈ (sweepStep sqrt st i j).2 := by
  unfold sweepStep
  split
  · split_ifs
    · exact List.mem_append_left _ hc
    · exact List.mem_append_left _ hc
  · exact hc

theorem sweepStep_check (sqrt : K → K) (st : List (particle K) × List Call) (i j : Nat)
    (hi : i < st.1.length) (hj : j < st.1.length) :
    Call.check i j ∈ (sweepStep sqrt st i j).2 := by
  unfold sweepStep
  rw [List.getElem?_eq_getElem hi, List.getElem?_eq_getElem hj]
  simp only []
  split_ifs <;> simp

theorem sweepStep_resolve_self (sqrt : K → K) (h0 : sqrt 0 = 0)
    (st : List (particle K) × List Call) (i : Nat) (hi : i < st.1.length)
    (hr : 0 < (st.1[i]).radius) :
    Call.resolve i i ∈ (sweepStep sqrt st i i).2 := by
  unfold sweepStep
  rw [List.getElem?_eq_getElem hi]
  simp only []
  rw [if_pos (checkCollision_self sqrt h0 _ hr)]
  simp

theorem sweepStep_resolve_self_of_radii (sqrt : K → K) (h0 : sqrt 0 = 0)
    (st : List (particle K) × List Call) (i : Nat) (r : K)
    (hr : (radii st.1)[i]? = some r) (hpos : 0 < r) :
    Call.resolve i i ∈ (sweepStep sqrt st i i).2 := by
  simp only [radii, List.getElem?_map, Option.map_eq_some'] at hr
  obtain ⟨p, hp, hpr⟩ := hr
  obtain ⟨hi, hget⟩ := List.getElem?_eq_some_iff.mp hp
  exact sweepStep_resolve_self sqrt h0 st i hi (by rw [hget, hpr]; exact hpos)

theorem sweepRow_cons (sqrt : K → K) (i j : Nat) (js : List Nat)
    (st : List (particle K) × List Call) :
    sweepRow sqrt i (j :: js) st = sweepRow sqrt i js (sweepStep sqrt st i j) := rfl

theorem sweepRow_radii (sqrt : K → K) (i : Nat) (js : List Nat) :
    ∀ st : List (particle K) × List Call, radii (sweepRow sqrt i js st).1 = radii st.1 := by
  induction js with
  | nil => intro st; rfl
  | cons j t ih =>
    intro st
    rw [sweepRow_cons, ih, sweepStep_radii]

theorem sweepRow_calls_mono (sqrt : K → K) (i : Nat) (js : List Nat) (c : Call) :
    ∀ st : List (particle K) × List Call, c ∈ st.2 → c ∈ (sweepRow sqrt i js st).2 := by
  induction js with
  | nil => intro st h; exact h
  | cons j t ih =>
    intro st h
    rw [sweepRow_cons]
    exact ih _ (sweepStep_calls_mono sqrt st i j c h)

theorem sweepRow_check (sqrt : K → K) (i j : Nat) (js : List Nat) :
    ∀ st : List (particle K) × List Call, j ∈ js →
      i < (radii st.1).length → j < (radii st.1).length →
      Call.check i j ∈ (sweepRow sqrt i js st).2 := by
  induction js with
  | nil => intro st h; cases h
  | cons j1 t ih =>
    intro st hmem hi hj
    rw [sweepRow_cons]
    by_cases hjj : j = j1
    · subst hjj
      apply sweepRow_calls_mono
      rw [radii_length] at hi hj
      exact sweepStep_check sqrt st i j hi hj
    · have hmem2 : j ∈ t := by
        rcases List.mem_cons.mp hmem with h | h
        · exact absurd h hjj
        · exact h
      apply ih _ hmem2
      · rw [sweepStep_radii]; exact hi
      · rw [sweepStep_radii]; exact hj

theorem sweepRow_resolve_self (sqrt : K → K) (h0 : sqrt 0 = 0) (i : Nat) (r : K) (hpos : 0 < r)
    (js : List Nat) :
    ∀ st : List (particle K) × List Call, i ∈ js → (radii st.1)[i]? = some r →
      Call.resolve i i ∈ (sweepRow sqrt i js st).2 := by
  induction js with
  | nil => intro st h; cases h
  | cons j1 t ih =>
    intro st hmem hr
    rw [sweepRow_cons]
    by_cases hjj : i = j1
    · subst hjj
      apply sweepRow_calls_mono
      exact sweepStep_resolve_self_of_radii sqrt h0 st i r hr hpos
    · have hmem2 : i ∈ t := by
        rcases List.mem_cons.mp hmem with h | h
        · exact absurd h hjj
        · exact h
      apply ih _ hmem2
      rw [sweepStep_radii]; exact hr

theorem sweepRows_cons (sqrt : K → K) (n i : Nat) (is : List Nat)
    (st : List (particle K) × List Call) :
    sweepRows sqrt n (i :: is) st = sweepRows sqrt n is (sweepRow sqrt i (List.range n) st) := rfl

theorem sweepRows_radii (sqrt : K → K) (n : Nat) (is : List Nat) :
    ∀ st : List (particle K) × List Call, radii (sweepRows sqrt n is st).1 = radii st.1 := by
  induction is with
  | nil => intro st; rfl
  | cons i t ih =>
    intro st
    rw [sweepRows_cons, ih, sweepRow_radii]

theorem sweepRows_calls_mono (sqrt : K → K) (n : Nat) (is : List Nat) (c : Call) :
    ∀ st : List (particle K) × List Call, c ∈ st.2 → c ∈ (sweepRows sqrt n is st).2 := by
  induction is with
  | nil => intro st h; exact h
  | cons i t ih =>
    intro st h
    rw [sweepRows_cons]
    exact ih _ (sweepRow_calls_mono sqrt i (List.range n) c st h)

/-- Every ordered index pair of the iteration space is passed to `checkCollision`. -/
theorem sweepRows_check (sqrt : K → K) (n i j : Nat) (hjn : j < n) (is : List Nat) :
    ∀ st : List (particle K) × List Call, i ∈ is →
      i < (radii st.1).length → j < (radii st.1).length →
      Call.check i j ∈ (sweepRows sqrt n is st).2 := by
  induction is with
  | nil => intro st h; cases h
  | cons i1 t ih =>
    intro st hmem hi hj
    rw [sweepRows_cons]
    by_cases hii : i = i1
    · subst hii
      apply sweepRows_calls_mono
      exact sweepRow_check sqrt i j (List.range n) st (List.mem_range.mpr hjn) hi hj
    · have hmem2 : i ∈ t := by
        rcases List.mem_cons.mp hmem with h | h
        · exact absurd h hii
        · exact h
      apply ih _ hmem2
      · rw [sweepRow_radii]; exact hi
      · rw [sweepRow_radii]; exact hj

theorem sweepRows_resolve_self (sqrt : K → K) (h0 : sqrt 0 = 0) (n i : Nat) (hin : i < n)
    (r : K) (hpos : 0 < r) (is : List Nat) :
    ∀ st : List (particle K) × List Call, i ∈ is → (radii st.1)[i]? = some r →
      Call.resolve i i ∈ (sweepRows sqrt n is st).2 := by
  induction is with
  | nil => intro st h; cases h
  | cons i1 t ih =>
    intro st hmem hr
    rw [sweepRows_cons]
    by_cases hii : i = i1
    · subst hii
      apply sweepRows_calls_mono
      exact sweepRow_resolve_self sqrt h0 i r hpos (List.range n) st (List.mem_range.mpr hin) hr
    · have hmem2 : i ∈ t := by
        rcases List.mem_cons.mp hmem with h | h
        · exact absurd h hii
        · exact h
      apply ih _ hmem2
      rw [sweepRow_radii]; exact hr

/-- A particle passed to `resolveCollision` as both arguments comes back as it
was, with no division evaluated. -/
theorem resolveCollision_self (sqrt : K → K) (h0 : sqrt 0 = 0) (p : particle K) :
    resolveCollision sqrt p p = ⟨p, p, []⟩ := by
  have hz : vec3.length sqrt (p.position.sub p.position) = 0 := by
    simp [vec3.length, vec3.dot, vec3.sub, h0]
  unfold resolveCollision
  simp only []
  rw [if_pos hz]

theorem sweepStep_checks (sqrt : K → K) (st : List (particle K) × List Call) (i j : Nat)
    (hi : i < (radii st.1).length) (hj : j < (radii st.1).length) :
    (sweepStep sqrt st i j).2.filter Call.isCheck =
      st.2.filter Call.isCheck ++ [Call.check i j] := by
  rw [radii_length] at hi hj
  unfold sweepStep
  rw [List.getElem?_eq_getElem hi, List.getElem?_eq_getElem hj]
  simp only []
  split_ifs <;> simp [List.filter_append, List.filter_cons, Call.isCheck]

/-- The `checkCollision` calls of one row are the pairs `(i, j)` for `j` in the
order iterated. -/
theorem sweepRow_checks (sqrt : K → K) (i : Nat) (js : List Nat) :
    ∀ st : List (particle K) × List Call, i < (radii st.1).length →
      (∀ j ∈ js, j < (radii st.1).length) →
      (sweepRow sqrt i js st).2.filter Call.isCheck =
        st.2.filter Call.isCheck ++ js.map (fun b => Call.check i b) := by
  induction js with
  | nil => intro st _ _; simp [sweepRow]
  | cons j t ih =>
    intro st hi hjs
    rw [sweepRow_cons, ih _ (by rw [sweepStep_radii]; exact hi)
      (fun b hb => by rw [sweepStep_radii]; exact hjs b (List.mem_cons_of_mem _ hb)),
      sweepStep_checks sqrt st i j hi (hjs j (List.mem_cons_self _ _))]
    simp

/-- The `checkCollision` calls of the rows `is` are the pairs `(i, j)`, row by
row. -/
theorem sweepRows_checks (sqrt : K → K) (n : Nat) (is : List Nat) :
    ∀ st : List (particle K) × List Call, (∀ a ∈ is, a < (radii st.1).length) →
      n = (radii st.1).length →
      (sweepRows sqrt n is st).2.filter Call.isCheck =
        st.2.filter Call.isCheck ++
          is.flatMap (fun a => (List.range n).map (fun b => Call.check a b)) := by
  induction is with
  | nil => intro st _ _; simp [sweepRows]
  | cons i t ih =>
    intro st his hn
    rw [sweepRows_cons, ih _
      (fun a ha => by rw [sweepRow_radii]; exact his a (List.mem_cons_of_mem _ ha))
      (by rw [sweepRow_radii]; exact hn),
      sweepRow_checks sqrt i (List.range n) st (his i (List.mem_cons_self _ _))
        (fun b hb => by rw [← hn]; exact List.mem_range.mp hb)]
    simp

/-- C7, amended: the sweep tests every ordered pair of indices of the collection,
self-pairs included.  For every collection and all indices `i`, `j` in it,
`checkCollision` is invoked with the particles at `i` and `j`, in particular with
the particle at index `i` as both arguments; the `checkCollision` calls of the
sweep, in order, are exactly the pairs `(i, j)` in row-major order.  When the
particle at `i` has a positive radius its self-test succeeds and
`resolveCollision` is invoked with it as both arguments as well, and such a call
returns at the zero-distance guard without changing the particle.  Stated over
any square root with `sqrt 0 = 0`. -/
theorem sweep_tests_self_pairs (sqrt : K → K) (h0 : sqrt 0 = 0)
    (particles : List (particle K)) (i j : Nat)
    (hi : i < particles.length) (hj : j < particles.length) :
    Call.check i j ∈ (sweep sqrt particles).2 ∧
      Call.check i i ∈ (sweep sqrt particles).2 ∧
      (sweep sqrt particles).2.filter Call.isCheck =
        (List.range particles.length).flatMap
          (fun a => (List.range particles.length).map (fun b => Call.check a b)) ∧
      (0 < (particles[i]).radius → Call.resolve i i ∈ (sweep sqrt particles).2) ∧
      resolveCollision sqrt particles[i] particles[i] = ⟨particles[i], particles[i], []⟩ := by
  have hir : i < (radii particles).length := by rw [radii_length]; exact hi
  have hjr : j < (radii particles).length := by rw [radii_length]; exact hj
  refine ⟨?_, ?_, ?_, ?_, resolveCollision_self sqrt h0 _⟩
  · exact sweepRows_check sqrt particles.length i j hj (List.range particles.length)
      (particles, []) (List.mem_range.mpr hi) hir hjr
  · exact sweepRows_check sqrt particles.length i i hi (List.range particles.length)
      (particles, []) (List.mem_range.mpr hi) hir hir
  · have h := sweepRows_checks sqrt particles.length (List.range particles.length)
      (particles, []) (fun a ha => by rw [radii_length]; exact List.mem_range.mp ha)
      (by rw [radii_length])
    simpa [sweep] using h
  · intro hpos
    exact sweepRows_resolve_self sqrt h0 particles.length i hi _ hpos
      (List.range particles.length) (particles, []) (List.mem_range.mpr hi)
      (radii_getElem? particles i _ (List.getElem?_eq_getElem hi))

/-- Witness of C7, amended: a collection holding the two approaching unit balls,
over the reals, at the indices 0 and 1. -/
theorem sweep_tests_self_pairs_witness :
    Call.check 0 1 ∈ (sweep Real.sqrt [(leftBall : particle ℝ), rightBall]).2 ∧
      Call.check 0 0 ∈ (sweep Real.sqrt [(leftBall : particle ℝ), rightBall]).2 ∧
      (sweep Real.sqrt [(leftBall : particle ℝ), rightBall]).2.filter Call.isCheck =
        (List.range 2).flatMap (fun a => (List.range 2).map (fun b => Call.check a b)) ∧
      (0 < (leftBall : particle ℝ).radius →
        Call.resolve 0 0 ∈ (sweep Real.sqrt [(leftBall : particle ℝ), rightBall]).2) ∧
      resolveCollision Real.sqrt (leftBall : particle ℝ) leftBall = ⟨leftBall, leftBall, []⟩ :=
  sweep_tests_self_pairs Real.sqrt Real.sqrt_zero [leftBall, rightBall] 0 1
    (by simp) (by simp)

/-- C7 as stated fails: on the collection holding one unit ball the sweep makes
exactly two calls, `checkCollision` and then `resolveCollision`, both with the
particle at index 0 as both arguments. -/
theorem sweep_singleton_calls :
    (sweep Real.sqrt [(leftBall : particle ℝ)]).2 = [Call.check 0 0, Call.resolve 0 0] := by
  have hc : checkCollision Real.sqrt (leftBall : particle ℝ) leftBall = true :=
    checkCollision_self Real.sqrt Real.sqrt_zero leftBall (by norm_num [leftBall])
  simp [sweep, sweepRows, sweepRow, sweepStep, List.range_succ, hc]

end Sweep

end ParticleSim
